import Mathlib

/-!
Verification of the tabular-data conversion pipeline of the `april`
utility package: the Excel reader (`ExcelParser` in
src/utils/xlsx/excel.parser.ts) and the writer (`JsonDownloader` in
src/utils/xlsx/excel.download.ts).

The embedding models JavaScript runtime values (`Value`), objects as
insertion-ordered association lists (`Obj`), and the pipeline stages of
both classes as pure Lean functions.  External platform primitives
(the numeric parse behind `Number`, string conversion, `Date`) are
modelled explicitly where the pipeline depends on them.
-/

namespace April

/-- A JavaScript number: either NaN or a finite value (modelled as a
rational; every number the pipeline produces is a decimal). -/
inductive JsNum where
  | nan
  | fin (q : Rat)
deriving DecidableEq, Repr

/-- A JavaScript runtime value as it flows through the pipeline:
strings, numbers, booleans, null, undefined, arrays, and Date objects
(a Date is modelled by its timestamp, none for an invalid date). -/
inductive Value where
  | str (s : String)
  | num (n : JsNum)
  | bool (b : Bool)
  | null
  | undefined
  | arr (vs : List Value)
  | jsDate (t : Option Int)

/-- A JavaScript object: an insertion-ordered list of key/value pairs. -/
abbrev Obj := List (String × Value)

/-- Property read `o[k]`: the value at key k, `undefined` when absent. -/
def lookupJs (o : Obj) (k : String) : Value :=
  match o.find? (fun kv => kv.1 == k) with
  | some kv => kv.2
  | none => .undefined

/-- The key list of an object (Object.keys). -/
def keys (o : Obj) : List String := o.map Prod.fst

/-- Property assignment `o[k] = v`: replaces the value in place when the
key exists (keeping its position), otherwise appends the pair. -/
def insertJs (o : Obj) (k : String) (v : Value) : Obj :=
  if o.any (fun kv => kv.1 == k) then
    o.map (fun kv => if kv.1 == k then (k, v) else kv)
  else
    o ++ [(k, v)]

/-- Property deletion, delete o[k]. -/
def deleteKey (o : Obj) (k : String) : Obj :=
  o.filter (fun kv => kv.1 != k)

/-- JavaScript truthiness. -/
def truthy : Value → Bool
  | .str s => s != ""
  | .num .nan => false
  | .num (.fin q) => q != 0
  | .bool b => b
  | .null => false
  | .undefined => false
  | .arr _ => true
  | .jsDate _ => true

/-- Whitespace-trimming on the character list (model of the platform
string trim, written structurally so the kernel can evaluate it). -/
def trimChars (cs : List Char) : List Char :=
  ((cs.dropWhile Char.isWhitespace).reverse.dropWhile Char.isWhitespace).reverse

/-- Model of the platform trim on strings. -/
def jsTrim (s : String) : String := String.mk (trimChars s.data)

/-- Numeric value of a digit list (assumed all digits). -/
def natOfDigits (cs : List Char) : Nat :=
  cs.foldl (fun a c => 10 * a + (c.toNat - 48)) 0

/-- Model of the platform numeric parse of a non-empty trimmed string
(decimal literals with optional sign and fractional part; anything else
parses to none, i.e. NaN). -/
def parseDec (s : String) : Option Rat :=
  let cs := s.toList
  let signed : Int × List Char :=
    match cs with
    | '-' :: r => (-1, r)
    | '+' :: r => (1, r)
    | r => (1, r)
  let sign := signed.1
  let body := signed.2
  let intPart := body.takeWhile (fun c => c != '.')
  let restPart := body.drop intPart.length
  match restPart with
  | [] =>
    if !intPart.isEmpty && intPart.all Char.isDigit then
      some ((sign : Rat) * (natOfDigits intPart : Rat))
    else none
  | '.' :: frac =>
    if intPart.all Char.isDigit && frac.all Char.isDigit
        && !(intPart.isEmpty && frac.isEmpty) then
      some ((sign : Rat) *
        ((natOfDigits intPart : Rat)
          + (natOfDigits frac : Rat) / (10 : Rat) ^ frac.length))
    else none
  | _ => none

/-- Decimal rendering of a finite JavaScript number (model of the
platform number-to-string conversion on decimal values). -/
def ratToDecString (q : Rat) : String :=
  if q.den = 1 then toString q.num
  else
    match (List.range 41).find? (fun k => (q * (10 : Rat) ^ k).den == 1) with
    | some k =>
      let m := (q * (10 : Rat) ^ k).num
      let a := m.natAbs
      let ds := toString a
      let padded :=
        if ds.length < k + 1 then
          String.mk (List.replicate (k + 1 - ds.length) '0') ++ ds
        else ds
      let cs := padded.toList
      let ip := String.mk (cs.take (cs.length - k))
      let fp := String.mk (cs.drop (cs.length - k))
      (if m < 0 then "-" else "") ++ ip ++ "." ++ fp
    | none => toString q.num ++ "/" ++ toString q.den

/-- String form of a JavaScript number. -/
def jsNumToString : JsNum → String
  | .nan => "NaN"
  | .fin q => ratToDecString q

mutual

/-- Model of the platform string conversion `String(v)` (Date rendering
abstracted to a placeholder form; no claim depends on it). -/
def jsToString : Value → String
  | .str s => s
  | .num n => jsNumToString n
  | .bool b => if b then "true" else "false"
  | .null => "null"
  | .undefined => "undefined"
  | .arr vs => String.intercalate "," (jsToStringList vs)
  | .jsDate none => "Invalid Date"
  | .jsDate (some t) => "Date " ++ toString t

/-- String forms of a list of values (for array rendering). -/
def jsToStringList : List Value → List String
  | [] => []
  | v :: vs => jsToString v :: jsToStringList vs

end

/-- Model of the platform numeric conversion `Number(v)`. -/
def toNumber : Value → JsNum
  | .num n => n
  | .null => .fin 0
  | .undefined => .nan
  | .bool b => .fin (if b then 1 else 0)
  | .str s =>
    let t := jsTrim s
    if t = "" then .fin 0
    else match parseDec t with
      | some q => .fin q
      | none => .nan
  | .arr vs =>
    let t := jsTrim (jsToString (.arr vs))
    if t = "" then .fin 0
    else match parseDec t with
      | some q => .fin q
      | none => .nan
  | .jsDate none => .nan
  | .jsDate (some t) => .fin t

/-! ## ExcelParser (reader) -/

/-- The runtime class of a zod field schema, as inspected by the
instanceof checks in ExcelParser.transformData. -/
inductive FieldKind where
  | number
  | string
  | boolean
  | date
  | array
  | enumOf (opts : List String)
  | optional
  | nullable
deriving DecidableEq, Repr

/-- The boolean coercion test of transformData:
value === true, value === "true", value === "1", or value === 1. -/
def isTrueish : Value → Bool
  | .bool true => true
  | .str "true" => true
  | .str "1" => true
  | .num (.fin q) => q == 1
  | _ => false

/-- Model of the platform Date constructor applied to a raw value
(string date-format parsing is a platform concern outside the source;
it is modelled as yielding an invalid date — no claim depends on it). -/
def dateParseModel : Value → Option Int
  | .num (.fin q) => some q.floor
  | .num .nan => none
  | .bool b => some (if b then 1 else 0)
  | .jsDate t => t
  | _ => none

/-- Automatic schema-kind-based coercion of one raw cell value
(the instanceof dispatch inside ExcelParser.transformData). -/
def autoCoerce : FieldKind → Value → Value
  | .number, .str "" => .null
  | .number, .null => .null
  | .number, v => .num (toNumber v)
  | .string, .null => .str ""
  | .string, .undefined => .str ""
  | .string, v => .str (jsTrim (jsToString v))
  | .boolean, v => .bool (isTrueish v)
  | .date, v => if truthy v then .jsDate (dateParseModel v) else .null
  | .array, .arr vs => .arr vs
  | .array, v => if truthy v then .arr [v] else .arr []
  | .enumOf opts, .str s => if opts.contains s then .str s else .null
  | .enumOf _, _ => .null
  | .optional, .undefined => .null
  | .optional, v => v
  | .nullable, .str "" => .null
  | .nullable, v => v

/-- Configuration of ExcelParser (ExcelParserOptions).  The zod schema
is abstracted to its observable surface: `shape` is some list of
(field, kind) pairs when the schema is a ZodObject (none otherwise),
and `validate` is the success predicate of schema.parse on a record. -/
structure ParserOptions where
  expectedHeaders : List String
  shape : Option (List (String × FieldKind))
  validate : Obj → Bool
  fieldMapping : List (String × String)
  transformations : String → Option (Value → Except String Value)

/-- The errors ExcelParser.parseExcel can throw after decoding. -/
inductive ParseError where
  | emptyPayload
  | missingHeaders (hs : List String)
  | fieldTransform (field : String) (msg : String)
  | rowValidation (rowNum : Nat)
deriving DecidableEq, Repr

/-- ExcelParser.validateHeaders: empty data throws the empty-file
error; otherwise the expected headers absent from the first row's keys
are collected (by filtering expectedHeaders) and reported. -/
def validateHeaders (cfg : ParserOptions) (data : List Obj) :
    Except ParseError Unit :=
  match data with
  | [] => .error .emptyPayload
  | first :: _ =>
    let fileHeaders := keys first
    let missing := cfg.expectedHeaders.filter (fun h => !fileHeaders.contains h)
    if missing.isEmpty then .ok () else .error (.missingHeaders missing)

/-- One field of ExcelParser.transformData: read the raw cell by Excel
header; apply the custom transformation when registered (its errors are
NOT inside the try/catch and so propagate); otherwise apply automatic
coercion when the schema is an object and declares the field.  The
try/catch around the automatic branch guards operations that are total
in this model, so that branch always succeeds. -/
def transformField (cfg : ParserOptions) (row : Obj)
    (excelHeader targetField : String) : Except ParseError Value :=
  let value := lookupJs row excelHeader
  match cfg.transformations targetField with
  | some f =>
    match f value with
    | .ok v => .ok v
    | .error msg => .error (.fieldTransform targetField msg)
  | none =>
    match cfg.shape with
    | some shape =>
      match shape.find? (fun p => p.1 == targetField) with
      | some p => .ok (autoCoerce p.2 value)
      | none => .ok value
    | none => .ok value

/-- The fieldMapping iteration of ExcelParser.transformData: process
the remaining entries in declaration order, assigning each transformed
value to its target field of the record under construction; a throwing
custom transform aborts the iteration. -/
def transformRowGo (cfg : ParserOptions) (row : Obj) :
    Obj → List (String × String) → Except ParseError Obj
  | acc, [] => .ok acc
  | acc, p :: l =>
    match transformField cfg row p.1 p.2 with
    | .error e => .error e
    | .ok v => transformRowGo cfg row (insertJs acc p.2 v) l

/-- One row of ExcelParser.transformData: iterate the fieldMapping
entries starting from a fresh record. -/
def transformRow (cfg : ParserOptions) (row : Obj) : Except ParseError Obj :=
  transformRowGo cfg row [] cfg.fieldMapping

/-- ExcelParser.transformData over all rows (an error in any row
propagates out of the enclosing map). -/
def transformData (cfg : ParserOptions) : List Obj →
    Except ParseError (List Obj)
  | [] => .ok []
  | r :: rs =>
    match transformRow cfg r with
    | .error e => .error e
    | .ok v =>
      match transformData cfg rs with
      | .error e => .error e
      | .ok rest => .ok (v :: rest)

/-- ExcelParser.validateData starting at data index i: the first row
rejected by the schema aborts with its display row number i + 2.
schema.parse is abstracted to the predicate cfg.validate; a valid row
passes through. -/
def validateDataFrom (cfg : ParserOptions) : Nat → List Obj →
    Except ParseError (List Obj)
  | _, [] => .ok []
  | i, r :: rs =>
    if cfg.validate r then
      match validateDataFrom cfg (i + 1) rs with
      | .ok rest => .ok (r :: rest)
      | .error e => .error e
    else .error (.rowValidation (i + 2))

/-- ExcelParser.validateData. -/
def validateData (cfg : ParserOptions) (data : List Obj) :
    Except ParseError (List Obj) :=
  validateDataFrom cfg 0 data

/-- ExcelParser.parseExcel from the decoded row records onward (file
reading and sheet decoding are external collaborators): header
validation, then per-row transformation, then schema validation. -/
def parseFromRows (cfg : ParserOptions) (data : List Obj) :
    Except ParseError (List Obj) :=
  match validateHeaders cfg data with
  | .error e => .error e
  | .ok _ =>
    match transformData cfg data with
    | .error e => .error e
    | .ok t => validateData cfg t

/-! ## JsonDownloader (writer) -/

/-- Writer options (ExcelDownloadOptions restricted to the shaping
pipeline; sheetName/fileName/saveToServer only affect the external
codec and filesystem). -/
structure DownloadOptions where
  excludeColumns : List String
  delimiter : String
  transformData : Option (Obj → Obj)
  headerMapping : List (String × String)

/-- The header-renaming of one key: headerMapping[key] || key, so a
key absent from the map, or mapped to the empty string (falsy), stays
unchanged. -/
def mapHeader (m : List (String × String)) (k : String) : String :=
  match m.find? (fun p => p.1 == k) with
  | some p => if p.2 == "" then k else p.2
  | none => k

/-- Column exclusion on one record: shallow-copy, then delete each
excluded column. -/
def excludeStep (cols : List String) (o : Obj) : Obj :=
  cols.foldl deleteKey o

/-- Header mapping on one record: build a fresh object, assigning each
entry under its renamed key (later entries overwrite colliding ones). -/
def mapStep (m : List (String × String)) (o : Obj) : Obj :=
  o.foldl (fun acc kv => insertJs acc (mapHeader m kv.1) kv.2) []

/-- The shared shaping pipeline of generateExcel/generateCSV:
optional whole-row transform, then column exclusion, then header
mapping. -/
def shapeData (opts : DownloadOptions) (data : List Obj) : List Obj :=
  let processedData :=
    match opts.transformData with
    | some f => data.map f
    | none => data
  let filteredData := processedData.map (excludeStep opts.excludeColumns)
  filteredData.map (mapStep opts.headerMapping)

/-- Doubling of double-quote characters (model of the platform global
replace of a double quote by two, written structurally). -/
def escapeQuotes : List Char → List Char
  | [] => []
  | c :: cs =>
    if c = '"' then c :: c :: escapeQuotes cs else c :: escapeQuotes cs

/-- CSV serialization of one cell: strings are double-quoted with
inner quotes doubled, every other value prints its bare string form. -/
def csvCell (v : Value) : String :=
  match v with
  | .str s => "\"" ++ String.mk (escapeQuotes s.data) ++ "\""
  | v => jsToString v

/-- JsonDownloader.generateCSV (in-memory mode): shape the records,
derive the header line from the first shaped record (empty when there
are none), serialize each record's values in its own key order, and
join everything with newlines (no trailing newline). -/
def generateCSV (data : List Obj) (opts : DownloadOptions) : String :=
  let mappedData := shapeData opts data
  let headers := String.intercalate opts.delimiter (keys (mappedData.headD []))
  String.intercalate "\n"
    (headers :: mappedData.map (fun row =>
      String.intercalate opts.delimiter (row.map (fun kv => csvCell kv.2))))

/-- JsonDownloader.generateExcel up to the hand-off to the external
sheet encoder: the shaped records that json_to_sheet receives. -/
def generateExcelRows (data : List Obj) (opts : DownloadOptions) : List Obj :=
  shapeData opts data

/-- First-occurrence deduplication: the key list a sequence of
JavaScript property assignments produces (an existing key keeps its
position, a new key is appended). -/
def dedupFirst (l : List String) : List String :=
  l.foldl (fun ks k => if k ∈ ks then ks else ks ++ [k]) []

/-! ## Heap model of the writer's shaping steps

To state the frame property (the caller's record objects are not
mutated), the two shaping passes are replayed over an explicit store
of objects addressed by references.  The spread `\x7b...item\x7d`
allocates a fresh copy; `delete` mutates the object at a reference;
the header-mapping pass allocates a fresh output object per record. -/

/-- The object heap: objects addressed by their index. -/
abbrev Store := List Obj

/-- A reference into the store. -/
abbrev Ref := Nat

/-- Dereference (a dangling reference reads as the empty object). -/
def readRef (st : Store) (r : Ref) : Obj := st.getD r []

/-- Column exclusion on one referenced record: allocate a shallow copy
of the record, then mutate the copy by deleting each excluded column
in turn; the result is the reference of the copy. -/
def excludeStepST (cols : List String) (st : Store) (r : Ref) :
    Store × Ref :=
  let copy := readRef st r
  let nr := st.length
  (cols.foldl (fun s c => s.set nr (deleteKey (readRef s nr) c)) (st ++ [copy]),
   nr)

/-- Header mapping on one referenced record: read it and allocate a
fresh mapped object. -/
def mapStepST (m : List (String × String)) (st : Store) (r : Ref) :
    Store × Ref :=
  (st ++ [mapStep m (readRef st r)], st.length)

/-- The writer's exclusion pass over the whole input array. -/
def excludeAllST (cols : List String) : Store → List Ref → Store × List Ref
  | st, [] => (st, [])
  | st, r :: rs =>
    let p := excludeStepST cols st r
    let q := excludeAllST cols p.1 rs
    (q.1, p.2 :: q.2)

/-- The writer's header-mapping pass over the whole array. -/
def mapAllST (m : List (String × String)) : Store → List Ref → Store × List Ref
  | st, [] => (st, [])
  | st, r :: rs =>
    let p := mapStepST m st r
    let q := mapAllST m p.1 rs
    (q.1, p.2 :: q.2)

/-- The heap-level shaping pipeline of generateCSV/generateExcel when
no transformData option is supplied: the exclusion pass over the
caller's references followed by the header-mapping pass. -/
def shapeDataST (cols : List String) (m : List (String × String))
    (st : Store) (rs : List Ref) : Store × List Ref :=
  let p := excludeAllST cols st rs
  mapAllST m p.1 p.2

/-! ## Helper lemmas -/

/-- Number coercion away from the two special-cased values applies the
numeric conversion. -/
theorem autoCoerce_number_of_ne (v : Value) (h1 : v ≠ .str "") (h2 : v ≠ .null) :
    autoCoerce .number v = .num (toNumber v) := by
  cases v with
  | str s =>
    have hs : s ≠ "" := fun h => h1 (by rw [h])
    unfold autoCoerce
    split <;> simp_all
  | null => exact absurd rfl h2
  | num n => rfl
  | bool b => rfl
  | undefined => rfl
  | arr vs => rfl
  | jsDate t => rfl

/-- A non-blank unparseable string converts to NaN. -/
theorem toNumber_str_nan (s : String) (h1 : jsTrim s ≠ "")
    (h2 : parseDec (jsTrim s) = none) : toNumber (.str s) = .nan := by
  simp only [toNumber]
  rw [if_neg h1, h2]

/-! ## Claims -/

/-- C2: for a field of number kind with no custom transformation, the
automatic coercion maps the raw empty string and raw null to null, maps
every other raw value to its numeric parse, turns non-numeric text into
NaN, and never rejects at this stage (the field transform returns a
value, not an error). -/
theorem claim_C2_number_coercion :
    (autoCoerce .number (.str "") = .null)
    ∧ (autoCoerce .number .null = .null)
    ∧ (∀ v : Value, v ≠ .str "" → v ≠ .null →
        autoCoerce .number v = .num (toNumber v))
    ∧ (∀ s : String, jsTrim s ≠ "" → parseDec (jsTrim s) = none →
        autoCoerce .number (.str s) = .num .nan)
    ∧ (∀ (cfg : ParserOptions) (row : Obj) (hdr fld : String)
        (shape : List (String × FieldKind)),
        cfg.transformations fld = none → cfg.shape = some shape →
        shape.find? (fun p => p.1 == fld) = some (fld, .number) →
        transformField cfg row hdr fld =
          .ok (autoCoerce .number (lookupJs row hdr))) := by
  refine ⟨rfl, rfl, autoCoerce_number_of_ne, ?_, ?_⟩
  · intro s h1 h2
    have hne : Value.str s ≠ Value.str "" := by
      intro h
      injection h with hs
      exact h1 (by rw [hs]; rfl)
    rw [autoCoerce_number_of_ne _ hne (by intro h; cases h),
      toNumber_str_nan s h1 h2]
  · intro cfg row hdr fld shape hnone hshape hfind
    simp [transformField, hnone, hshape, hfind]

/-- C2 witness: concrete instances of the quantified parts. -/
theorem claim_C2_witness :
    (autoCoerce .number (.num (.fin 5)) = .num (toNumber (.num (.fin 5))))
    ∧ (autoCoerce .number (.str "abc") = .num .nan)
    ∧ (transformField
        { expectedHeaders := ["H"], shape := some [("f", .number)],
          validate := fun _ => true, fieldMapping := [("H", "f")],
          transformations := fun _ => none }
        [("H", .str "7")] "H" "f" =
        .ok (autoCoerce .number
          (lookupJs [("H", .str "7")] "H"))) := by
  refine ⟨?_, ?_, ?_⟩
  · exact claim_C2_number_coercion.2.2.1 _ (by simp) (by simp)
  · exact claim_C2_number_coercion.2.2.2.1 "abc" (by decide) (by decide)
  · exact claim_C2_number_coercion.2.2.2.2 _ _ "H" "f" [("f", .number)]
      rfl rfl (by decide)

/-- C5: the concrete writer scenario of the spec — one record, the
email column excluded, name mapped to Full Name, comma delimiter —
produces exactly the two CSV lines with the string quoted, the number
bare, and no trailing newline. -/
theorem claim_C5_concrete_csv :
    generateCSV
      [[("name", .str "Ann"), ("age", .num (.fin 30)),
        ("email", .str "a@x.com")]]
      { excludeColumns := ["email"], delimiter := ",",
        transformData := none, headerMapping := [("name", "Full Name")] } =
      "Full Name,age\n\"Ann\",30" := by
  decide

/-- C8: with zero decoded rows, the parse pipeline fails immediately
with the empty-payload error, for every configuration. -/
theorem claim_C8_empty_payload (cfg : ParserOptions) :
    parseFromRows cfg [] = .error .emptyPayload := rfl

/-- C3: when the first decoded row omits at least one expected header,
parse fails with a missing-headers error whose list contains exactly
the omitted expected headers and is a sublist of (hence ordered by) the
expectedHeaders declaration. -/
theorem claim_C3_missing_headers (cfg : ParserOptions) (first : Obj)
    (rest : List Obj)
    (h : ∃ x ∈ cfg.expectedHeaders, x ∉ keys first) :
    ∃ hs, parseFromRows cfg (first :: rest) = .error (.missingHeaders hs)
      ∧ (∀ x, x ∈ hs ↔ x ∈ cfg.expectedHeaders ∧ x ∉ keys first)
      ∧ hs.Sublist cfg.expectedHeaders := by
  refine ⟨cfg.expectedHeaders.filter (fun x => !(keys first).contains x),
    ?_, ?_, List.filter_sublist _⟩
  · have hne :
        cfg.expectedHeaders.filter (fun x => !(keys first).contains x) ≠ [] := by
      rcases h with ⟨x, hx1, hx2⟩
      intro hnil
      have hx : x ∈ cfg.expectedHeaders.filter
          (fun x => !(keys first).contains x) := by
        rw [List.mem_filter]
        exact ⟨hx1, by simpa using hx2⟩
      rw [hnil] at hx
      simp at hx
    have hvh : validateHeaders cfg (first :: rest) =
        .error (.missingHeaders
          (cfg.expectedHeaders.filter (fun x => !(keys first).contains x))) := by
      simp only [validateHeaders]
      rw [if_neg (by simpa [List.isEmpty_iff] using hne)]
    simp [parseFromRows, hvh]
  · intro x
    rw [List.mem_filter]
    simp

/-- C3 witness: a concrete configuration expecting headers A and B on
a sheet whose first row only has A. -/
theorem claim_C3_witness :
    ∃ hs,
      parseFromRows
        { expectedHeaders := ["A", "B"], shape := none,
          validate := fun _ => true, fieldMapping := [],
          transformations := fun _ => none }
        [[("A", .str "x")]] = .error (.missingHeaders hs)
      ∧ (∀ x, x ∈ hs ↔ x ∈ ["A", "B"] ∧ x ∉ keys [("A", Value.str "x")])
      ∧ hs.Sublist ["A", "B"] :=
  claim_C3_missing_headers _ _ _ ⟨"B", by decide, by decide⟩

/-- The first schema-rejected row (at data index i + j) aborts
validateData with display row number i + j + 2; all earlier rows are
valid. -/
theorem validateDataFrom_fail (cfg : ParserOptions) :
    ∀ (t : List Obj) (i : Nat), (∃ r ∈ t, cfg.validate r = false) →
    ∃ j r, validateDataFrom cfg i t = .error (.rowValidation (i + j + 2))
      ∧ t[j]? = some r ∧ cfg.validate r = false
      ∧ ∀ k r2, k < j → t[k]? = some r2 → cfg.validate r2 = true := by
  intro t
  induction t with
  | nil => intro i h; simp at h
  | cons r rs ih =>
    intro i h
    by_cases hr : cfg.validate r
    · have htail : ∃ x ∈ rs, cfg.validate x = false := by
        rcases h with ⟨x, hx, hxf⟩
        rcases List.mem_cons.mp hx with h1 | h2
        · rw [h1, hr] at hxf; exact absurd hxf (by simp)
        · exact ⟨x, h2, hxf⟩
      rcases ih (i + 1) htail with ⟨j, rr, hEq, hGet, hF, hMin⟩
      refine ⟨j + 1, rr, ?_, by simpa using hGet, hF, ?_⟩
      · have harith : i + 1 + j + 2 = i + (j + 1) + 2 := by omega
        rw [harith] at hEq
        simp [validateDataFrom, hr, hEq]
      · intro k r2 hk hget
        match k with
        | 0 =>
          have : r2 = r := by simpa using hget.symm
          rw [this]; exact hr
        | Nat.succ k2 =>
          exact hMin k2 r2 (by omega) (by simpa using hget)
    · refine ⟨0, r, ?_, by simp, by simpa using hr, ?_⟩
      · simp [validateDataFrom, hr]
      · intro k r2 hk
        exact absurd hk (by omega)

/-- C4: when the reader reaches schema validation and at least one
assembled record fails it, the parse aborts with a row-validation error
for the earliest failing data row, reporting its 0-based index plus 2
(no records are returned). -/
theorem claim_C4_first_failing_row (cfg : ParserOptions) (data t : List Obj)
    (hv : validateHeaders cfg data = .ok ())
    (ht : transformData cfg data = .ok t)
    (hfail : ∃ r ∈ t, cfg.validate r = false) :
    ∃ j r, parseFromRows cfg data = .error (.rowValidation (j + 2))
      ∧ t[j]? = some r ∧ cfg.validate r = false
      ∧ ∀ k r2, k < j → t[k]? = some r2 → cfg.validate r2 = true := by
  rcases validateDataFrom_fail cfg t 0 hfail with ⟨j, r, hEq, hGet, hF, hMin⟩
  refine ⟨j, r, ?_, hGet, hF, hMin⟩
  rw [show (0 : Nat) + j + 2 = j + 2 from by omega] at hEq
  simp [parseFromRows, hv, ht, validateData, hEq]

/-- C4 witness: one data row that the schema predicate rejects is
reported as row 2 (index 0 plus 2). -/
theorem claim_C4_witness :
    ∃ j r,
      parseFromRows
        { expectedHeaders := ["H"], shape := none,
          validate := fun o => o.isEmpty, fieldMapping := [("H", "f")],
          transformations := fun _ => none }
        [[("H", .str "x")]] = .error (.rowValidation (j + 2))
      ∧ [[(("f" : String), Value.str "x")]][j]? = some r
      ∧ (fun (o : Obj) => o.isEmpty) r = false
      ∧ ∀ k r2, k < j → [[(("f" : String), Value.str "x")]][k]? = some r2 →
          (fun (o : Obj) => o.isEmpty) r2 = true :=
  claim_C4_first_failing_row _ _ [[("f", Value.str "x")]] rfl rfl
    ⟨[("f", Value.str "x")], List.Mem.head _, rfl⟩

/-- A registered custom transformation that throws surfaces as a
field-transform error of transformField (nothing catches it). -/
theorem transformField_custom_err (cfg : ParserOptions) (row : Obj)
    (hdr fld : String) (f : Value → Except String Value) (msg : String)
    (hf : cfg.transformations fld = some f)
    (herr : f (lookupJs row hdr) = .error msg) :
    transformField cfg row hdr fld = .error (.fieldTransform fld msg) := by
  simp [transformField, hf, herr]

/-- If some fieldMapping entry's field transform fails on a row, the
whole row transform fails. -/
theorem transformRowGo_err (cfg : ParserOptions) (row : Obj) :
    ∀ (l : List (String × String)) (acc : Obj),
    (∃ p ∈ l, ∃ e, transformField cfg row p.1 p.2 = .error e) →
    ∃ e, transformRowGo cfg row acc l = .error e := by
  intro l
  induction l with
  | nil => intro acc h; simp at h
  | cons q l ih =>
    intro acc h
    cases hq : transformField cfg row q.1 q.2 with
    | error e =>
      exact ⟨e, by simp [transformRowGo, hq]⟩
    | ok v =>
      have htail : ∃ p ∈ l, ∃ e, transformField cfg row p.1 p.2 = .error e := by
        rcases h with ⟨p, hp, e, he⟩
        rcases List.mem_cons.mp hp with h1 | h2
        · rw [h1, hq] at he; exact absurd he (by simp)
        · exact ⟨p, h2, e, he⟩
      rcases ih (insertJs acc q.2 v) htail with ⟨e2, he2⟩
      exact ⟨e2, by simp [transformRowGo, hq, he2]⟩

/-- If some row's transform fails, transformData fails. -/
theorem transformData_err (cfg : ParserOptions) :
    ∀ (data : List Obj),
    (∃ row ∈ data, ∃ e, transformRow cfg row = .error e) →
    ∃ e, transformData cfg data = .error e := by
  intro data
  induction data with
  | nil => intro h; simp at h
  | cons r rs ih =>
    intro h
    cases hr : transformRow cfg r with
    | error e => exact ⟨e, by simp [transformData, hr]⟩
    | ok v =>
      have htail : ∃ row ∈ rs, ∃ e, transformRow cfg row = .error e := by
        rcases h with ⟨row, hrow, e, he⟩
        rcases List.mem_cons.mp hrow with h1 | h2
        · rw [h1, hr] at he; exact absurd he (by simp)
        · exact ⟨row, h2, e, he⟩
      rcases ih htail with ⟨e2, he2⟩
      exact ⟨e2, by simp [transformData, hr, he2]⟩

/-- C1 (amended): an error thrown by a registered TransformFunction is
NOT caught — it propagates and the parse call fails at the per-field
transform stage; only the automatic schema-based coercion sits inside
the try/catch, and that path always succeeds (so the original-value
fallback concerns the automatic path alone). -/
theorem claim_C1_transform_error_propagates :
    (∀ (cfg : ParserOptions) (data : List Obj) (row : Obj)
      (hdr fld : String) (f : Value → Except String Value) (msg : String),
      row ∈ data →
      validateHeaders cfg data = .ok () →
      (hdr, fld) ∈ cfg.fieldMapping →
      cfg.transformations fld = some f →
      f (lookupJs row hdr) = .error msg →
      ∃ e, parseFromRows cfg data = .error e)
    ∧ (∀ (cfg : ParserOptions) (row : Obj) (hdr fld : String),
      cfg.transformations fld = none →
      ∃ v, transformField cfg row hdr fld = .ok v) := by
  constructor
  · intro cfg data row hdr fld f msg hrow hhv hpair hf herr
    have hfield : transformField cfg row hdr fld =
        .error (.fieldTransform fld msg) :=
      transformField_custom_err cfg row hdr fld f msg hf herr
    have hrowerr : ∃ e, transformRow cfg row = .error e :=
      transformRowGo_err cfg row cfg.fieldMapping []
        ⟨(hdr, fld), hpair, _, hfield⟩
    have hdataerr : ∃ e, transformData cfg data = .error e :=
      transformData_err cfg data ⟨row, hrow, hrowerr⟩
    rcases hdataerr with ⟨e, he⟩
    exact ⟨e, by simp [parseFromRows, hhv, he]⟩
  · intro cfg row hdr fld hnone
    cases hs : cfg.shape with
    | none => exact ⟨lookupJs row hdr, by simp [transformField, hnone, hs]⟩
    | some shape =>
      cases hfind : shape.find? (fun p => p.1 == fld) with
      | none =>
        exact ⟨lookupJs row hdr, by simp [transformField, hnone, hs, hfind]⟩
      | some p =>
        exact ⟨autoCoerce p.2 (lookupJs row hdr),
          by simp [transformField, hnone, hs, hfind]⟩

/-- C1 counterexample: with a transform registered for field f that
always throws, the parse call fails at the per-field transform stage —
the claim that the error is caught and the raw value kept is false. -/
theorem claim_C1_counterexample :
    parseFromRows
      { expectedHeaders := ["H"], shape := some [("f", .string)],
        validate := fun _ => true, fieldMapping := [("H", "f")],
        transformations := fun fld =>
          if fld = "f" then some (fun _ => .error "boom") else none }
      [[("H", .str "x")]]
    = .error (.fieldTransform "f" "boom") := rfl

/-- C1 witness: both halves of the amended statement at concrete
inputs. -/
theorem claim_C1_witness :
    (∃ e,
      parseFromRows
        { expectedHeaders := ["H"], shape := some [("f", .string)],
          validate := fun _ => true, fieldMapping := [("H", "f")],
          transformations := fun fld =>
            if fld = "f" then some (fun _ => .error "boom") else none }
        [[("H", .str "x")]] = .error e)
    ∧ (∃ v,
      transformField
        { expectedHeaders := [], shape := none, validate := fun _ => true,
          fieldMapping := [], transformations := fun _ => none }
        [] "H" "f" = .ok v) :=
  ⟨claim_C1_transform_error_propagates.1 _ _ [("H", Value.str "x")] "H" "f"
      (fun _ => .error "boom") "boom" (List.Mem.head _) rfl
      (List.Mem.head _) rfl rfl,
   claim_C1_transform_error_propagates.2 _ [] "H" "f" rfl⟩

/-- Keys after a property assignment: an existing key leaves the key
list unchanged, a new key is appended. -/
theorem keys_insertJs (o : Obj) (k : String) (v : Value) :
    keys (insertJs o k v) =
      if k ∈ keys o then keys o else keys o ++ [k] := by
  by_cases h : o.any (fun kv => kv.1 == k)
  · have hk : k ∈ keys o := by
      rcases List.any_eq_true.mp h with ⟨kv, hkv, hb⟩
      exact List.mem_map.mpr ⟨kv, hkv, eq_of_beq hb⟩
    rw [if_pos hk]
    unfold insertJs
    rw [if_pos h]
    unfold keys
    rw [List.map_map]
    apply List.map_congr_left
    intro kv _
    by_cases hb : kv.1 = k
    · simp [hb]
    · simp [hb]
  · have hk : k ∉ keys o := by
      intro hmem
      rcases List.mem_map.mp hmem with ⟨kv, hkv, hfst⟩
      exact h (List.any_eq_true.mpr ⟨kv, hkv, by simp [hfst]⟩)
    rw [if_neg hk]
    unfold insertJs
    rw [if_neg h]
    simp [keys]

/-- The key list a successful fieldMapping iteration produces: each
target field in order, first occurrence kept. -/
theorem transformRowGo_keys (cfg : ParserOptions) (row : Obj) :
    ∀ (l : List (String × String)) (acc rec : Obj),
    transformRowGo cfg row acc l = .ok rec →
    keys rec = (l.map Prod.snd).foldl
      (fun ks k => if k ∈ ks then ks else ks ++ [k]) (keys acc) := by
  intro l
  induction l with
  | nil =>
    intro acc rec h
    simp only [transformRowGo] at h
    cases h
    simp
  | cons q l ih =>
    intro acc rec h
    simp only [transformRowGo] at h
    cases hq : transformField cfg row q.1 q.2 with
    | error e => rw [hq] at h; exact absurd h (by simp)
    | ok v =>
      rw [hq] at h
      have := ih (insertJs acc q.2 v) rec h
      rw [this, keys_insertJs]
      simp

/-- C9: every record assembled by the row transform has exactly the
internal field names that occur as values of fieldMapping, in
declaration order with first occurrences kept; raw columns outside the
mapping never contribute a key, whatever the row contains. -/
theorem claim_C9_record_keys (cfg : ParserOptions) (row rec : Obj)
    (h : transformRow cfg row = .ok rec) :
    keys rec = dedupFirst (cfg.fieldMapping.map Prod.snd) := by
  have := transformRowGo_keys cfg row cfg.fieldMapping [] rec h
  simpa [dedupFirst, keys] using this

/-- C9 witness: a sheet row with an extra unmapped column produces a
record keyed exactly by the mapping's target fields. -/
theorem claim_C9_witness :
    keys [(("f1" : String), Value.str "a"), (("f2" : String), Value.undefined)]
      = dedupFirst ["f1", "f2"] :=
  claim_C9_record_keys
    { expectedHeaders := ["H1", "H2"], shape := none,
      validate := fun _ => true,
      fieldMapping := [("H1", "f1"), ("H2", "f2")],
      transformations := fun _ => none }
    [("H1", Value.str "a"), ("Extra", Value.str "z")]
    [("f1", Value.str "a"), ("f2", Value.undefined)] rfl

/-- A key of an assignment result comes from the old object or is the
assigned key. -/
theorem mem_keys_insertJs {x : String} (o : Obj) (k : String) (v : Value)
    (h : x ∈ keys (insertJs o k v)) : x ∈ keys o ∨ x = k := by
  rw [keys_insertJs] at h
  split at h
  · exact Or.inl h
  · rcases List.mem_append.mp h with h1 | h2
    · exact Or.inl h1
    · exact Or.inr (by simpa using h2)

/-- Every key of the header-mapped record is the renaming of a key of
the input record. -/
theorem mem_keys_mapStep {x : String} (m : List (String × String)) (o : Obj)
    (h : x ∈ keys (mapStep m o)) : ∃ k ∈ keys o, x = mapHeader m k := by
  have aux : ∀ (o : Obj) (acc : Obj),
      x ∈ keys (o.foldl
        (fun acc kv => insertJs acc (mapHeader m kv.1) kv.2) acc) →
      x ∈ keys acc ∨ ∃ k ∈ keys o, x = mapHeader m k := by
    intro o
    induction o with
    | nil => intro acc h; exact Or.inl h
    | cons kv o ih =>
      intro acc h
      rw [List.foldl_cons] at h
      rcases ih _ h with h1 | h2
      · rcases mem_keys_insertJs _ _ _ h1 with h3 | h4
        · exact Or.inl h3
        · exact Or.inr ⟨kv.1, by simp [keys], h4⟩
      · rcases h2 with ⟨k, hk, hxk⟩
        exact Or.inr ⟨k, by simp [keys]; right; exact (by simpa [keys] using hk), hxk⟩
  rcases aux o [] (by simpa [mapStep] using h) with h1 | h2
  · simp [keys] at h1
  · exact h2

/-- A key surviving a delete differs from the deleted column. -/
theorem mem_keys_deleteKey {x : String} (o : Obj) (c : String)
    (h : x ∈ keys (deleteKey o c)) : x ∈ keys o ∧ x ≠ c := by
  rcases List.mem_map.mp h with ⟨kv, hkv, hfst⟩
  rcases List.mem_filter.mp hkv with ⟨hmem, hne⟩
  exact ⟨List.mem_map.mpr ⟨kv, hmem, hfst⟩, by rw [← hfst]; simpa using hne⟩

/-- A key surviving the exclusion pass is a key of the record outside
the excluded column list. -/
theorem mem_keys_excludeStep {x : String} (cols : List String) (o : Obj)
    (h : x ∈ keys (excludeStep cols o)) : x ∈ keys o ∧ x ∉ cols := by
  induction cols generalizing o with
  | nil => exact ⟨by simpa [excludeStep] using h, by simp⟩
  | cons c cols ih =>
    have h2 : x ∈ keys (excludeStep cols (deleteKey o c)) := by
      simpa [excludeStep] using h
    rcases ih (deleteKey o c) h2 with ⟨hk, hnc⟩
    rcases mem_keys_deleteKey o c hk with ⟨hko, hne⟩
    exact ⟨hko, by simp [hne, hnc]⟩

/-- The renaming of a key either keeps it or is a non-empty mapped
header value of some map entry. -/
theorem mapHeader_cases (m : List (String × String)) (k : String) :
    mapHeader m k = k ∨ ∃ p ∈ m, p.2 = mapHeader m k ∧ p.2 ≠ "" := by
  unfold mapHeader
  cases hf : m.find? (fun p => p.1 == k) with
  | none => exact Or.inl rfl
  | some p =>
    by_cases hb : p.2 = ""
    · exact Or.inl (by simp [hb])
    · refine Or.inr ⟨p, List.mem_of_find?_eq_some hf, ?_, hb⟩
      simp [hb]

/-- C6 (amended): an excluded column name never survives as a field of
the shaped output — provided the headerMapping does not rename a
surviving field to an excluded name (without that proviso the claim
fails, see the counterexample).  shapeData is the record pipeline both
generateCSV and generateExcel serialize. -/
theorem claim_C6_excluded_absent (data : List Obj) (opts : DownloadOptions)
    (c : String) (rec : Obj)
    (hc : c ∈ opts.excludeColumns)
    (hm : ∀ p ∈ opts.headerMapping, p.2 = "" ∨ p.2 ∉ opts.excludeColumns)
    (hrec : rec ∈ shapeData opts data) :
    c ∉ keys rec := by
  intro hck
  simp only [shapeData] at hrec
  rcases List.mem_map.mp hrec with ⟨mid, hmid, hrec2⟩
  rcases List.mem_map.mp hmid with ⟨raw, _, hmid2⟩
  rw [← hrec2, ← hmid2] at hck
  rcases mem_keys_mapStep _ _ hck with ⟨k, hk, hck2⟩
  rcases mem_keys_excludeStep _ _ hk with ⟨_, hknc⟩
  rcases mapHeader_cases opts.headerMapping k with h1 | h2
  · rw [hck2, h1] at hc
    exact hknc hc
  · rcases h2 with ⟨p, hp, hpeq, hpne⟩
    rcases hm p hp with h3 | h3
    · exact hpne h3
    · rw [hpeq, ← hck2] at h3
      exact h3 hc

/-- C6 counterexample: excluding column b while mapping the surviving
column a to the header b makes the excluded name reappear as a column
of the output (shaped records and CSV text alike), refuting the claim
quantified over every options value. -/
theorem claim_C6_counterexample :
    let opts : DownloadOptions :=
      { excludeColumns := ["b"], delimiter := ",",
        transformData := none, headerMapping := [("a", "b")] }
    let data : List Obj := [[("a", .num (.fin 1)), ("b", .num (.fin 2))]]
    "b" ∈ opts.excludeColumns
      ∧ keys ((generateExcelRows data opts).headD []) = ["b"]
      ∧ generateCSV data opts = "b\n1" := by
  exact ⟨by decide, by decide, by decide⟩

/-- C6 witness: with a headerMapping whose values avoid the excluded
names, the excluded column is absent from the shaped output. -/
theorem claim_C6_witness :
    "b" ∉ keys [(("A" : String), Value.str "x")] :=
  claim_C6_excluded_absent
    [[("a", Value.str "x"), ("b", Value.str "y")]]
    { excludeColumns := ["b"], delimiter := ",",
      transformData := none, headerMapping := [("a", "A")] }
    "b" [("A", Value.str "x")]
    (by decide) (by decide) (List.Mem.head _)

/-- Assigning a fresh key appends the pair. -/
theorem insertJs_of_not_mem (o : Obj) (k : String) (v : Value)
    (h : k ∉ keys o) : insertJs o k v = o ++ [(k, v)] := by
  unfold insertJs
  rw [if_neg]
  intro hany
  rcases List.any_eq_true.mp hany with ⟨kv, hkv, hb⟩
  exact h (List.mem_map.mpr ⟨kv, hkv, eq_of_beq hb⟩)

/-- The header-mapping fold, when the renamed keys are collision-free,
appends the entry-wise renamed pairs to the accumulator. -/
theorem mapStep_foldl_eq (m : List (String × String)) :
    ∀ (o : Obj) (acc : Obj),
    (keys acc ++ o.map (fun kv => mapHeader m kv.1)).Nodup →
    o.foldl (fun acc kv => insertJs acc (mapHeader m kv.1) kv.2) acc
      = acc ++ o.map (fun kv => (mapHeader m kv.1, kv.2)) := by
  intro o
  induction o with
  | nil => intro acc _; simp
  | cons kv o ih =>
    intro acc h
    have hd := (List.nodup_append.mp h).2.2
    have hfresh : mapHeader m kv.1 ∉ keys acc := by
      intro hmem
      exact hd hmem (by simp)
    rw [List.foldl_cons, insertJs_of_not_mem _ _ _ hfresh]
    have hnd2 : (keys (acc ++ [(mapHeader m kv.1, kv.2)])
        ++ o.map (fun kv => mapHeader m kv.1)).Nodup := by
      have hkeys : keys (acc ++ [(mapHeader m kv.1, kv.2)])
          = keys acc ++ [mapHeader m kv.1] := by simp [keys]
      rw [hkeys, List.append_assoc]
      simpa using h
    rw [ih _ hnd2, List.append_assoc]
    simp

/-- C7 (amended): provided the renamed field names of a record are
pairwise distinct, the header-mapping step is exactly the entry-wise
renaming — each field mapped to a non-empty header is renamed to it
once, every other field (absent from the map, or mapped to the falsy
empty string) passes through under its original name, and all values
are unchanged.  (Colliding renamed names instead overwrite, and an
empty-string mapping does not rename — see the counterexample.) -/
theorem claim_C7_header_mapping (m : List (String × String)) (o : Obj)
    (hnd : (o.map (fun kv => mapHeader m kv.1)).Nodup) :
    mapStep m o = o.map (fun kv => (mapHeader m kv.1, kv.2)) := by
  have := mapStep_foldl_eq m o [] (by simpa [keys] using hnd)
  simpa [mapStep] using this

/-- C7 counterexample: a field present in the map but mapped to the
empty string is NOT renamed to its mapped header — the falsy fallback
keeps the original key. -/
theorem claim_C7_counterexample :
    mapStep [("a", "")] [("a", .num (.fin 1))] = [("a", .num (.fin 1))]
    ∧ keys (mapStep [("a", "")] [("a", .num (.fin 1))]) ≠ [""] :=
  ⟨rfl, by decide⟩

/-- C7 witness: a two-field record with one mapped and one unmapped
field renames entry-wise. -/
theorem claim_C7_witness :
    mapStep [("a", "A")] [("a", .num (.fin 1)), ("b", .num (.fin 2))]
      = [("A", .num (.fin 1)), ("b", .num (.fin 2))] := by
  have h := claim_C7_header_mapping [("a", "A")]
    [("a", .num (.fin 1)), ("b", .num (.fin 2))] (by decide)
  simpa using h

/-- Setting the element just past a store writes the appended slot. -/
theorem set_append_len (st : Store) (o x : Obj) :
    (st ++ [o]).set st.length x = st ++ [x] := by
  induction st with
  | nil => rfl
  | cons b bs ih => simp [List.set, ih]

/-- Reading the element just past a store reads the appended slot. -/
theorem getD_append_len (st : Store) (o : Obj) :
    (st ++ [o]).getD st.length [] = o := by
  simp [List.getD]

/-- Reading below the old length ignores an extension. -/
theorem readRef_append (st ext : Store) (i : Nat) (h : i < st.length) :
    readRef (st ++ ext) i = readRef st i := by
  simp [readRef, List.getD, List.getElem?_append, h]

/-- The imperative exclusion of one record only appends the shaped
copy: the store grows by one slot holding the pure excludeStep result,
and the new reference points at it. -/
theorem excludeStepST_eq (cols : List String) (st : Store) (r : Ref) :
    excludeStepST cols st r =
      (st ++ [excludeStep cols (readRef st r)], st.length) := by
  have aux : ∀ (cols : List String) (o : Obj),
      cols.foldl
        (fun s c => s.set st.length (deleteKey (readRef s st.length) c))
        (st ++ [o])
      = st ++ [cols.foldl deleteKey o] := by
    intro cols
    induction cols with
    | nil => intro o; simp
    | cons c cols ih =>
      intro o
      rw [List.foldl_cons, List.foldl_cons,
        show readRef (st ++ [o]) st.length = o from by
          simp [readRef, getD_append_len],
        set_append_len]
      exact ih (deleteKey o c)
  simp only [excludeStepST, excludeStep]
  rw [aux cols (readRef st r)]

/-- The exclusion pass only extends the store. -/
theorem excludeAllST_ext (cols : List String) :
    ∀ (rs : List Ref) (st : Store),
    ∃ ext, (excludeAllST cols st rs).1 = st ++ ext := by
  intro rs
  induction rs with
  | nil => intro st; exact ⟨[], by simp [excludeAllST]⟩
  | cons r rs ih =>
    intro st
    rcases ih (st ++ [excludeStep cols (readRef st r)]) with ⟨ext, hext⟩
    refine ⟨excludeStep cols (readRef st r) :: ext, ?_⟩
    simp only [excludeAllST, excludeStepST_eq]
    rw [hext, List.append_assoc]
    rfl

/-- The header-mapping pass only extends the store. -/
theorem mapAllST_ext (m : List (String × String)) :
    ∀ (rs : List Ref) (st : Store),
    ∃ ext, (mapAllST m st rs).1 = st ++ ext := by
  intro rs
  induction rs with
  | nil => intro st; exact ⟨[], by simp [mapAllST]⟩
  | cons r rs ih =>
    intro st
    rcases ih (st ++ [mapStep m (readRef st r)]) with ⟨ext, hext⟩
    refine ⟨mapStep m (readRef st r) :: ext, ?_⟩
    simp only [mapAllST, mapStepST]
    rw [hext, List.append_assoc]
    rfl

/-- C10: the writer's shaping pipeline without a transformData option
never mutates a pre-existing object: exclusion deletes columns only on
a freshly allocated shallow copy and header mapping allocates fresh
output objects, so after the run every reference the caller held reads
exactly what it read before. -/
theorem claim_C10_no_mutation (cols : List String)
    (m : List (String × String)) (st : Store) (rs : List Ref) (i : Nat)
    (h : i < st.length) :
    readRef (shapeDataST cols m st rs).1 i = readRef st i := by
  rcases excludeAllST_ext cols rs st with ⟨ext1, h1⟩
  rcases mapAllST_ext m (excludeAllST cols st rs).2
      (excludeAllST cols st rs).1 with ⟨ext2, h2⟩
  have hst : (shapeDataST cols m st rs).1 = st ++ (ext1 ++ ext2) := by
    simp only [shapeDataST]
    rw [h2, h1, List.append_assoc]
  rw [hst, readRef_append st (ext1 ++ ext2) i h]

/-- C10 witness: a one-object store run through the pipeline with an
exclusion and a renaming still reads the original object. -/
theorem claim_C10_witness :
    readRef
      (shapeDataST ["b"] [("a", "A")]
        [[("a", Value.str "x"), ("b", Value.str "y")]] [0]).1 0
    = readRef [[("a", Value.str "x"), ("b", Value.str "y")]] 0 :=
  claim_C10_no_mutation ["b"] [("a", "A")]
    [[("a", Value.str "x"), ("b", Value.str "y")]] [0] 0 (by decide)

end April
